import Mathlib

/-!
Verification development for the SAFE tag computation implemented in
crates/script/src/main.rs of gnosisguild/safe-api.

The Rust program computes a 128-bit tag from an IO pattern (a slice of
32-bit encoded sponge operations) and a 64-byte domain separator:
it aggregates consecutive operations of the same kind, serializes the
aggregated words big-endian, appends the separator, hashes with SHA-256
and truncates the digest to its first 16 bytes, read big-endian.

Machine integers are embedded as `Nat` with explicit `% 2^32`
truncation where the Rust code performs `u32` arithmetic.
-/

set_option maxRecDepth 8000

namespace SafeApi

/-- Truncation to 32 bits: the wrap-around of Rust `u32` arithmetic. -/
def m32 (n : Nat) : Nat := n % 4294967296

/-! ### SHA-256 (model of the `sha2` crate, FIPS 180-4)

The `sha2` crate is an external dependency of the program; it is embedded
here as a bit-exact executable model of SHA-256, validated below against
the standard FIPS 180-4 test vectors. Bytes are `Nat` values below 256.
-/

/-- Right rotation of a 32-bit word by `k` positions. -/
def rotr32 (k n : Nat) : Nat := m32 ((n >>> k) ||| (n <<< (32 - k)))

/-- SHA-256 `Ch` function (32-bit complement written as xor with the mask). -/
def ch (x y z : Nat) : Nat := (x &&& y) ^^^ ((x ^^^ 4294967295) &&& z)

/-- SHA-256 `Maj` function. -/
def maj (x y z : Nat) : Nat := (x &&& y) ^^^ (x &&& z) ^^^ (y &&& z)

/-- SHA-256 big Sigma-0. -/
def bsig0 (x : Nat) : Nat := rotr32 2 x ^^^ rotr32 13 x ^^^ rotr32 22 x

/-- SHA-256 big Sigma-1. -/
def bsig1 (x : Nat) : Nat := rotr32 6 x ^^^ rotr32 11 x ^^^ rotr32 25 x

/-- SHA-256 small sigma-0. -/
def ssig0 (x : Nat) : Nat := rotr32 7 x ^^^ rotr32 18 x ^^^ (x >>> 3)

/-- SHA-256 small sigma-1. -/
def ssig1 (x : Nat) : Nat := rotr32 17 x ^^^ rotr32 19 x ^^^ (x >>> 10)

/-- Split a packed big-endian value into `n` 32-bit words. -/
def splitWords : Nat → Nat → List Nat
  | 0, _ => []
  | n + 1, v => splitWords n (v / 4294967296) ++ [v % 4294967296]

/-- Split a packed big-endian value into `n` bytes. -/
def splitBytes : Nat → Nat → List Nat
  | 0, _ => []
  | n + 1, v => splitBytes n (v / 256) ++ [v % 256]

/-- The 64 SHA-256 round constants, packed eight to a row. -/
def shaK : List Nat :=
  splitWords 8 0x428a2f9871374491b5c0fbcfe9b5dba53956c25b59f111f1923f82a4ab1c5ed5 ++
  splitWords 8 0xd807aa9812835b01243185be550c7dc372be5d7480deb1fe9bdc06a7c19bf174 ++
  splitWords 8 0xe49b69c1efbe47860fc19dc6240ca1cc2de92c6f4a7484aa5cb0a9dc76f988da ++
  splitWords 8 0x983e5152a831c66db00327c8bf597fc7c6e00bf3d5a7914706ca635114292967 ++
  splitWords 8 0x27b70a852e1b21384d2c6dfc53380d13650a7354766a0abb81c2c92e92722c85 ++
  splitWords 8 0xa2bfe8a1a81a664bc24b8b70c76c51a3d192e819d6990624f40e3585106aa070 ++
  splitWords 8 0x19a4c1161e376c082748774c34b0bcb5391c0cb34ed8aa4a5b9cca4f682e6ff3 ++
  splitWords 8 0x748f82ee78a5636f84c878148cc7020890befffaa4506cebbef9a3f7c67178f2

/-- The SHA-256 initial hash value, packed. -/
def shaH0 : List Nat :=
  splitWords 8 0x6a09e667bb67ae853c6ef372a54ff53a510e527f9b05688c1f83d9ab5be0cd19

/-- Big-endian 4-byte serialization of a 32-bit word (Rust `u32::to_be_bytes`). -/
def be32 (w : Nat) : List Nat := [w / 16777216 % 256, w / 65536 % 256, w / 256 % 256, w % 256]

/-- Big-endian 8-byte serialization of a 64-bit value. -/
def be64 (n : Nat) : List Nat :=
  [n / 72057594037927936 % 256, n / 281474976710656 % 256, n / 1099511627776 % 256,
   n / 4294967296 % 256, n / 16777216 % 256, n / 65536 % 256, n / 256 % 256, n % 256]

/-- SHA-256 message padding: 0x80, zeros to 56 mod 64, 8-byte bit length. -/
def padMessage (msg : List Nat) : List Nat :=
  let L := msg.length
  let z := (119 - L % 64) % 64
  msg ++ 128 :: (List.replicate z 0 ++ be64 (8 * L))

/-- Group a byte list into big-endian 32-bit words. -/
def bytesToWords : List Nat → List Nat
  | b1 :: b2 :: b3 :: b4 :: rest =>
      (b1 * 16777216 + b2 * 65536 + b3 * 256 + b4) :: bytesToWords rest
  | _ => []

/-- Extend the message schedule; `acc` holds the words produced so far,
most recent first. -/
def extendSchedule : Nat → List Nat → List Nat
  | 0, acc => acc
  | k + 1, acc =>
      let w := m32 (ssig1 (acc.getD 1 0) + acc.getD 6 0 + ssig0 (acc.getD 14 0) + acc.getD 15 0)
      extendSchedule k (w :: acc)

/-- The 64-entry message schedule of one 64-byte block. -/
def messageSchedule (block : List Nat) : List Nat :=
  (extendSchedule 48 (bytesToWords block).reverse).reverse

/-- One SHA-256 compression round; the state is the list [a,b,c,d,e,f,g,h]. -/
def compressStep (st : List Nat) (w k : Nat) : List Nat :=
  let t1 := m32 (st.getD 7 0 + bsig1 (st.getD 4 0) +
                 ch (st.getD 4 0) (st.getD 5 0) (st.getD 6 0) + k + w)
  let t2 := m32 (bsig0 (st.getD 0 0) + maj (st.getD 0 0) (st.getD 1 0) (st.getD 2 0))
  [m32 (t1 + t2), st.getD 0 0, st.getD 1 0, st.getD 2 0,
   m32 (st.getD 3 0 + t1), st.getD 4 0, st.getD 5 0, st.getD 6 0]

/-- Compress one 64-byte block into the running hash value. -/
def compressBlock (H : List Nat) (block : List Nat) : List Nat :=
  let sched := messageSchedule block
  let final := (sched.zip shaK).foldl (fun st p => compressStep st p.1 p.2) H
  (H.zip final).map (fun p => m32 (p.1 + p.2))

/-- SHA-256 digest (32 bytes) of a byte list. -/
def sha256 (msg : List Nat) : List Nat :=
  let padded := padMessage msg
  let H := (List.range (padded.length / 64)).foldl
    (fun H i => compressBlock H ((padded.drop (64 * i)).take 64)) shaH0
  (H.map be32).flatten

/-- FIPS 180-4 vector: the digest of the empty message. -/
example : sha256 [] =
    splitBytes 32 0xe3b0c44298fc1c149afbf4c8996fb92427ae41e4649b934ca495991b7852b855 := by decide

/-- FIPS 180-4 vector: the digest of "abc". -/
example : sha256 [97, 98, 99] =
    splitBytes 32 0xba7816bf8f01cfea414140de5dae2223b00361a396177a9cb410ff61f20015ad := by decide

/-- FIPS 180-4 vector: the two-block message
"abcdbcdecdefdefgefghfghighijhijkijkljklmklmnlmnomnopnopq". -/
example : sha256
    (splitBytes 28 0x6162636462636465636465666465666765666768666768696768696a ++
     splitBytes 28 0x68696a6b696a6b6c6a6b6c6d6b6c6d6e6c6d6e6f6d6e6f706e6f7071) =
    splitBytes 32 0x248d6a61d20638b8e5c026930c3e6039a33ce45964ff2167f6ecedd419db06c1 := by decide

/-! ### The tag computation (crates/script/src/main.rs, `compute_tag`)

The IO pattern is a list of `u32` words (`Nat` below `2^32` in the model);
the domain separator is the Rust `[u8; 64]`, a list of 64 bytes. The loop
state of the aggregation pass is made explicit as a structure, and the loop
body becomes a fold step. `u32` addition is embedded with `% 2^32`
(the wrap-around semantics of release-mode Rust).
-/

/-- `const ABSORB_FLAG: u32 = 0x80000000`. -/
def ABSORB_FLAG : Nat := 0x80000000

/-- `const SQUEEZE_FLAG: u32 = 0x00000000`. -/
def SQUEEZE_FLAG : Nat := 0x00000000

/-- The mutable loop state of the aggregation pass of `compute_tag`. -/
structure AggState where
  encoded_words : List Nat
  current_absorb_sum : Nat
  current_squeeze_sum : Nat
  last_was_absorb : Bool
deriving Repr, DecidableEq

/-- Initial loop state of `compute_tag`: empty output, zero sums,
`last_was_absorb = false`. -/
def initAgg : AggState := ⟨[], 0, 0, false⟩

/-- The body of the `for &encoded_word in io_pattern` loop of `compute_tag`. -/
def aggStep (st : AggState) (encoded_word : Nat) : AggState :=
  if encoded_word > 0 then
    let is_absorb : Bool := encoded_word &&& ABSORB_FLAG != 0
    let length := encoded_word &&& 0x7FFFFFFF
    if is_absorb then
      if st.last_was_absorb then
        { st with current_absorb_sum := m32 (st.current_absorb_sum + length),
                  last_was_absorb := true }
      else
        let st1 :=
          if st.current_squeeze_sum > 0 then
            { st with encoded_words := st.encoded_words ++ [SQUEEZE_FLAG ||| st.current_squeeze_sum],
                      current_squeeze_sum := 0 }
          else st
        { st1 with current_absorb_sum := length, last_was_absorb := true }
    else
      if !st.last_was_absorb then
        { st with current_squeeze_sum := m32 (st.current_squeeze_sum + length),
                  last_was_absorb := false }
      else
        let st1 :=
          if st.current_absorb_sum > 0 then
            { st with encoded_words := st.encoded_words ++ [ABSORB_FLAG ||| st.current_absorb_sum],
                      current_absorb_sum := 0 }
          else st
        { st1 with current_squeeze_sum := length, last_was_absorb := false }
  else st

/-- The two final flushes after the loop of `compute_tag`
(ABSORB first, then SQUEEZE). -/
def flushState (st : AggState) : List Nat :=
  let e1 :=
    if st.current_absorb_sum > 0 then
      st.encoded_words ++ [ABSORB_FLAG ||| st.current_absorb_sum]
    else st.encoded_words
  if st.current_squeeze_sum > 0 then e1 ++ [SQUEEZE_FLAG ||| st.current_squeeze_sum] else e1

/-- The aggregated word vector of `compute_tag`: the loop over the input
followed by the two final flushes. -/
def encoded_words (io_pattern : List Nat) : List Nat :=
  flushState (io_pattern.foldl aggStep initAgg)

/-- The serialized hash input of `compute_tag`: each aggregated word as its
big-endian 4 bytes, then the 64-byte domain separator verbatim. -/
def input_bytes (io_pattern : List Nat) (domain_separator : List Nat) : List Nat :=
  ((encoded_words io_pattern).map be32).flatten ++ domain_separator

/-- The final truncation of `compute_tag`: the first 16 digest bytes folded
big-endian into a 128-bit integer (`tag_value = tag_value * 256 + byte`). -/
def tagOfDigest (hash_bytes : List Nat) : Nat :=
  (hash_bytes.take 16).foldl (fun tag_value b => tag_value * 256 + b) 0

/-- `compute_tag` of crates/script/src/main.rs: aggregate, serialize,
append the separator, SHA-256, truncate to 128 bits. -/
def compute_tag (io_pattern : List Nat) (domain_separator : List Nat) : Nat :=
  tagOfDigest (sha256 (input_bytes io_pattern domain_separator))

/-! ### The hex helper (crates/script/src/main.rs, `hex_to_bytes`)

Rust strings are UTF-8 byte sequences and `hex_to_bytes` works on
`hex_clean.as_bytes().chunks(2)`, so the model takes the string as its
byte list. `u8::from_str_radix(s, 16).unwrap()` panics on a non-hex
chunk; the model returns `none` there, so panics are observable. -/

/-- `hex.replace("0x", "")`: remove every (non-overlapping, leftmost-first)
occurrence of the two bytes "0x" (0x30, 0x78). -/
def replace0x : List Nat → List Nat
  | 48 :: 120 :: rest => replace0x rest
  | b :: rest => b :: replace0x rest
  | [] => []

/-- The numeric value of one ASCII hex digit, if it is one. -/
def hexDigitVal (b : Nat) : Option Nat :=
  if 48 ≤ b ∧ b ≤ 57 then some (b - 48)
  else if 65 ≤ b ∧ b ≤ 70 then some (b - 55)
  else if 97 ≤ b ∧ b ≤ 102 then some (b - 87)
  else none

/-- `u8::from_str_radix(chunk, 16)` on a 1- or 2-byte chunk (a leading
ASCII plus sign is accepted by `from_str_radix`). -/
def chunkVal : List Nat → Option Nat
  | [43, c] => hexDigitVal c
  | [c1, c2] =>
      match hexDigitVal c1, hexDigitVal c2 with
      | some v1, some v2 => some (16 * v1 + v2)
      | _, _ => none
  | [c] => hexDigitVal c
  | _ => none

/-- `.as_bytes().chunks(2)`: split into pairs, a trailing lone byte kept. -/
def chunks2 : List Nat → List (List Nat)
  | c1 :: c2 :: rest => [c1, c2] :: chunks2 rest
  | [c] => [[c]]
  | [] => []

/-- The `for (i, chunk) in ... .enumerate()` loop of `hex_to_bytes`:
write each decoded chunk at index `i` of the buffer while `i < 64`;
chunks with `i >= 64` are never parsed. An unparseable chunk at
`i < 64` is the `unwrap` panic, modelled as `none`. -/
def writeChunks : List Nat → Nat → List (List Nat) → Option (List Nat)
  | buf, _, [] => some buf
  | buf, i, chunk :: rest =>
      if i < 64 then
        match chunkVal chunk with
        | some v => writeChunks (buf.set i v) (i + 1) rest
        | none => none
      else writeChunks buf (i + 1) rest

/-- `hex_to_bytes` of crates/script/src/main.rs: strip every "0x",
decode 2-byte chunks into a zero-initialized 64-byte buffer. -/
def hex_to_bytes (hex : List Nat) : Option (List Nat) :=
  writeChunks (List.replicate 64 0) 0 (chunks2 (replace0x hex))

/-! ### Spec-side defined notions

Two definitions below follow the wording of the specification rather than
the source, for the refinement claims that compare the two: the canonical
run-length merge of a pattern (spec section 3, "Aggregated Operation
Sequence") and the hex conversion as the spec describes it (strip only an
optional leading "0x"). -/

/-- Decode the explicit-flag words into (kind, length) pairs:
kind true = ABSORB (bit 31 set), length = low 31 bits. -/
def decodeOps (ws : List Nat) : List (Bool × Nat) :=
  ws.map (fun w => (w &&& ABSORB_FLAG != 0, w &&& 0x7FFFFFFF))

/-- The canonical form of the spec: drop zero-length operations and merge
maximal runs of equal kind, so that no two consecutive entries share a
kind and no length is zero. -/
def specCanonical : List (Bool × Nat) → List (Bool × Nat)
  | [] => []
  | (k, l) :: rest =>
      if l = 0 then specCanonical rest
      else
        match specCanonical rest with
        | [] => [(k, l)]
        | (k2, l2) :: tail =>
            if k = k2 then (k, l + l2) :: tail else (k, l) :: (k2, l2) :: tail

/-- Strip one optional leading "0x", as the spec describes the hex helper. -/
def dropLeading0x : List Nat → List Nat
  | 48 :: 120 :: rest => rest
  | hex => hex

/-- The hex conversion as the claim words it: strip at most an optional
leading "0x" (leaving any other characters in place), then decode as
`hex_to_bytes` does into the zero-padded 64-byte buffer. -/
def hex_to_bytes_as_claimed (hex : List Nat) : Option (List Nat) :=
  writeChunks (List.replicate 64 0) 0 (chunks2 (dropLeading0x hex))

/-! ### The canonical-word-sequence predicate and bitwise bridges -/

/-- The kind bit of an encoded word, as the code reads it
(`(encoded_word & ABSORB_FLAG) != 0`). -/
def wordKind (w : Nat) : Bool := w &&& ABSORB_FLAG != 0

/-- A well-formed encoded word: fits in 32 bits and its 31-bit length
field is nonzero. -/
def validWord (w : Nat) : Bool := (w &&& 0x7FFFFFFF != 0) && decide (w < 4294967296)

/-- No two consecutive words share a kind bit. -/
def alternating : List Nat → Bool
  | w1 :: w2 :: rest => (wordKind w1 != wordKind w2) && alternating (w2 :: rest)
  | _ => true

/-- An already-canonical word sequence: well-formed words of alternating
kinds. -/
def canonicalWords (ws : List Nat) : Bool := ws.all validWord && alternating ws

theorem mask31_eq_mod (w : Nat) : w &&& 0x7FFFFFFF = w % 2147483648 := by
  have h := Nat.and_pow_two_sub_one_eq_mod w 31
  norm_num at h
  exact h

theorem wordKind_false_of_lt (w : Nat) (h : w < 2147483648) : wordKind w = false := by
  have hb : w.testBit 31 = false := Nat.testBit_lt_two_pow (by norm_num; omega)
  have h31 : w &&& 2147483648 = 0 := by
    have := Nat.and_two_pow w 31
    norm_num at this
    simp [this, hb]
  simp [wordKind, ABSORB_FLAG, h31]

theorem wordKind_true_of_ge (w : Nat) (h1 : 2147483648 ≤ w) (h2 : w < 4294967296) :
    wordKind w = true := by
  have hb : w.testBit 31 = true := by
    rw [Nat.testBit_to_div_mod]
    have : w / 2 ^ 31 % 2 = 1 := by norm_num; omega
    simpa using this
  have h31 : w &&& 2147483648 = 2147483648 := by
    have := Nat.and_two_pow w 31
    norm_num at this
    simp [this, hb]
  simp [wordKind, ABSORB_FLAG, h31]

theorem lt_of_wordKind_false (w : Nat) (h2 : w < 4294967296) (hk : wordKind w = false) :
    w < 2147483648 := by
  by_contra hge
  rw [wordKind_true_of_ge w (by omega) h2] at hk
  exact Bool.noConfusion hk

theorem ge_of_wordKind_true (w : Nat) (hk : wordKind w = true) : 2147483648 ≤ w := by
  by_contra hlt
  rw [wordKind_false_of_lt w (by omega)] at hk
  exact Bool.noConfusion hk

theorem lor_absorb (l : Nat) (h : l < 2147483648) : ABSORB_FLAG ||| l = 2147483648 + l := by
  have e : (2147483648 : Nat) = 2 ^ 31 := by norm_num
  have hl : l < 2 ^ 31 := by omega
  rw [ABSORB_FLAG, e]
  apply Nat.eq_of_testBit_eq
  intro i
  rcases Nat.lt_trichotomy i 31 with hi | hi | hi
  · rw [Nat.testBit_lor, Nat.testBit_two_pow_of_ne (Nat.ne_of_gt hi), Bool.false_or,
      Nat.testBit_two_pow_add_gt hi]
  · subst hi
    rw [Nat.testBit_lor, Nat.testBit_two_pow_self, Bool.true_or, Nat.testBit_two_pow_add_eq,
      Nat.testBit_lt_two_pow hl]
    rfl
  · have hpow : 2 ^ 31 + l < 2 ^ i := by
      have h32 : (2 : Nat) ^ 32 ≤ 2 ^ i := Nat.pow_le_pow_right (by norm_num) hi
      have : (2 : Nat) ^ 31 + l < 2 ^ 32 := by norm_num; omega
      omega
    have hli : l < 2 ^ i := by omega
    rw [Nat.testBit_lor, Nat.testBit_two_pow_of_ne (Nat.ne_of_lt hi),
      Nat.testBit_lt_two_pow hli, Nat.testBit_lt_two_pow hpow]
    rfl

theorem lor_squeeze (s : Nat) : SQUEEZE_FLAG ||| s = s := by
  simp [SQUEEZE_FLAG]

/-! ### Aggregation of an already-canonical sequence -/

/-- Encode a (kind, length) pair the way the flushes do. -/
def encWord (k : Bool) (l : Nat) : Nat :=
  if k then ABSORB_FLAG ||| l else SQUEEZE_FLAG ||| l

/-- The loop state while one run of kind `k` and accumulated length `l`
is open and `acc` has already been emitted. -/
def pendState (acc : List Nat) (k : Bool) (l : Nat) : AggState :=
  ⟨acc, if k then l else 0, if k then 0 else l, k⟩

theorem alternating_cons_cons (a b : Nat) (l : List Nat) :
    alternating (a :: b :: l) = ((wordKind a != wordKind b) && alternating (b :: l)) := rfl

theorem pos_of_valid (w : Nat) (hv : validWord w = true) : 0 < w := by
  rcases Nat.eq_zero_or_pos w with h | h
  · subst h; simp [validWord] at hv
  · exact h

theorem lt32_of_valid (w : Nat) (hv : validWord w = true) : w < 4294967296 := by
  simp [validWord] at hv; exact hv.2

theorem mask_pos_of_valid (w : Nat) (hv : validWord w = true) : 0 < w &&& 0x7FFFFFFF := by
  simp [validWord] at hv
  exact Nat.pos_of_ne_zero hv.1

theorem mask_lt (w : Nat) : w &&& 0x7FFFFFFF < 2147483648 := by
  rw [mask31_eq_mod]
  exact Nat.mod_lt _ (by norm_num)

theorem encWord_false (l : Nat) : encWord false l = l := by
  simp [encWord, lor_squeeze]

theorem encWord_true (l : Nat) (h : l < 2147483648) : encWord true l = 2147483648 + l := by
  simp [encWord, lor_absorb l h]

theorem wordKind_encWord (k : Bool) (l : Nat) (h0 : 0 < l) (h : l < 2147483648) :
    wordKind (encWord k l) = k := by
  cases k
  · rw [encWord_false]; exact wordKind_false_of_lt l h
  · rw [encWord_true l h]; exact wordKind_true_of_ge _ (by omega) (by omega)

/-- Re-encoding the decoded kind and length of a well-formed word gives
the word back. -/
theorem encode_decode (w : Nat) (hv : validWord w = true) :
    encWord (wordKind w) (w &&& 0x7FFFFFFF) = w := by
  have h32 : w < 4294967296 := lt32_of_valid w hv
  cases hk : wordKind w
  · have hlt : w < 2147483648 := lt_of_wordKind_false w h32 hk
    rw [encWord_false, mask31_eq_mod, Nat.mod_eq_of_lt hlt]
  · have hge : 2147483648 ≤ w := ge_of_wordKind_true w hk
    rw [encWord_true _ (mask_lt w), mask31_eq_mod]
    omega

/-- The aggregation step on a word of the kind opposite to the open run:
the open run is flushed and a run of the new kind is opened. -/
theorem aggStep_pend (acc : List Nat) (k : Bool) (l : Nat) (w : Nat)
    (hl0 : 0 < l) (hv : validWord w = true) (hk : wordKind w = !k) :
    aggStep (pendState acc k l) w = pendState (acc ++ [encWord k l]) (!k) (w &&& 0x7FFFFFFF) := by
  have hw : 0 < w := pos_of_valid w hv
  simp only [wordKind] at hk
  cases k
  · simp [aggStep, pendState, encWord, hw, hk, hl0]
  · simp [aggStep, pendState, encWord, hw, hk, hl0]

/-- The first loop iteration from the initial state opens a run. -/
theorem aggStep_init (w : Nat) (hv : validWord w = true) :
    aggStep initAgg w = pendState [] (wordKind w) (w &&& 0x7FFFFFFF) := by
  have hw : 0 < w := pos_of_valid w hv
  have hm : w &&& 0x7FFFFFFF < 4294967296 := by
    have := mask_lt w; omega
  cases hk : wordKind w
  · simp only [wordKind] at hk
    simp [aggStep, initAgg, pendState, hw, hk, m32, Nat.mod_eq_of_lt hm]
  · simp only [wordKind] at hk
    simp [aggStep, initAgg, pendState, hw, hk]

/-- Flushing a state with one open run emits exactly that run. -/
theorem flush_pend (acc : List Nat) (k : Bool) (l : Nat) (hl0 : 0 < l) :
    flushState (pendState acc k l) = acc ++ [encWord k l] := by
  cases k
  · simp [flushState, pendState, encWord, hl0]
  · simp [flushState, pendState, encWord, hl0]

/-- Folding the loop over an alternating well-formed suffix, starting with
an open run that alternates with the suffix, emits everything in order. -/
theorem agg_pending (ws : List Nat) : ∀ (acc : List Nat) (k : Bool) (l : Nat),
    0 < l → l < 2147483648 → ws.all validWord = true →
    alternating (encWord k l :: ws) = true →
    flushState (ws.foldl aggStep (pendState acc k l)) = acc ++ encWord k l :: ws := by
  induction ws with
  | nil =>
      intro acc k l h0 _ _ _
      simpa using flush_pend acc k l h0
  | cons w rest ih =>
      intro acc k l h0 hlt hall halt
      rw [List.all_cons, Bool.and_eq_true] at hall
      obtain ⟨hvw, hrest⟩ := hall
      rw [alternating_cons_cons, Bool.and_eq_true] at halt
      obtain ⟨hne, halt2⟩ := halt
      rw [wordKind_encWord k l h0 hlt] at hne
      have hkk : wordKind w = !k := by
        cases k <;> cases hwk : wordKind w <;> simp_all
      have hl0w : 0 < w &&& 0x7FFFFFFF := mask_pos_of_valid w hvw
      have hltw : w &&& 0x7FFFFFFF < 2147483648 := mask_lt w
      have hew : encWord (!k) (w &&& 0x7FFFFFFF) = w := by
        rw [← hkk]; exact encode_decode w hvw
      rw [List.foldl_cons, aggStep_pend acc k l w h0 hvw hkk,
        ih (acc ++ [encWord k l]) (!k) (w &&& 0x7FFFFFFF) hl0w hltw hrest
          (by rw [hew]; exact halt2)]
      simp [hew]

/-- Aggregating an already-canonical word sequence returns it unchanged. -/
theorem encoded_words_canonical_id (ws : List Nat) (h : canonicalWords ws = true) :
    encoded_words ws = ws := by
  rw [canonicalWords, Bool.and_eq_true] at h
  obtain ⟨hall, halt⟩ := h
  cases ws with
  | nil => rfl
  | cons w rest =>
      rw [List.all_cons, Bool.and_eq_true] at hall
      obtain ⟨hvw, hrest⟩ := hall
      have hl0w : 0 < w &&& 0x7FFFFFFF := mask_pos_of_valid w hvw
      have hltw : w &&& 0x7FFFFFFF < 2147483648 := mask_lt w
      have hew : encWord (wordKind w) (w &&& 0x7FFFFFFF) = w := encode_decode w hvw
      rw [encoded_words, List.foldl_cons, aggStep_init w hvw,
        agg_pending rest [] (wordKind w) (w &&& 0x7FFFFFFF) hl0w hltw hrest
          (by rw [hew]; exact halt)]
      simp [hew]

/-! ### Concrete inputs used by the claim theorems -/

/-- The all-zero 64-byte domain separator. -/
def ds_zero : List Nat := List.replicate 64 0

/-- The 64-byte separator 0x41424344 followed by 60 zero bytes; this is what
`hex_to_bytes` produces from the 32-byte test-vector separator of the
program, zero-padded to the width `compute_tag` takes. -/
def ds_abcd : List Nat := [0x41, 0x42, 0x43, 0x44] ++ List.replicate 60 0

/-- The 64-byte separator 0x42434445 followed by 60 zero bytes. -/
def ds_bcde : List Nat := [0x42, 0x43, 0x44, 0x45] ++ List.replicate 60 0

/-- The ASCII bytes of the 64-character hex string "41424344" ++ 56 zeros,
denoting a 32-byte separator. -/
def hex41 : List Nat := [0x34, 0x31, 0x34, 0x32, 0x34, 0x33, 0x34, 0x34] ++ List.replicate 56 0x30

/-- The ASCII bytes of the 128-character hex string "41424344" ++ 120 zeros,
denoting a 64-byte separator. -/
def hex41x2 : List Nat :=
  [0x34, 0x31, 0x34, 0x32, 0x34, 0x33, 0x34, 0x34] ++ List.replicate 120 0x30

/-! ### Claim theorems -/

/-- C1: the claim fails on the code. A zero-length ABSORB operation (the
word 0x80000000) is not skipped by the `encoded_word > 0` guard; inserted
between two SQUEEZE(1) words it flushes the open squeeze run, so the
aggregated words become [0x00000001, 0x00000001] instead of [0x00000002]
and the tag changes. -/
theorem c1_zero_length_absorb_changes_tag :
    encoded_words [1, 0x80000000, 1] = [1, 1] ∧
    encoded_words [1, 1] = [2] ∧
    compute_tag [1, 0x80000000, 1] ds_zero ≠ compute_tag [1, 1] ds_zero :=
  ⟨by decide, by decide, by decide⟩

/-- C2: the particular instance holds ([ABSORB(1), ABSORB(1), SQUEEZE(1)]
and [ABSORB(2), SQUEEZE(1)] give equal tags), but the general merge
equivalence fails on the code: [SQUEEZE(1), ABSORB(0), SQUEEZE(1)] and
[SQUEEZE(2)] have the same canonical run-length-merged form, yet their
tags differ. -/
theorem c2_merge_equivalence_fails :
    compute_tag [0x80000001, 0x80000001, 0x00000001] ds_abcd
      = compute_tag [0x80000002, 0x00000001] ds_abcd ∧
    specCanonical (decodeOps [1, 0x80000000, 1]) = specCanonical (decodeOps [2]) ∧
    compute_tag [1, 0x80000000, 1] ds_abcd ≠ compute_tag [2] ds_abcd :=
  ⟨by decide, by decide, by decide⟩

/-- C3: the canonical-form invariant fails on the code. The input
[SQUEEZE(1), ABSORB(0), SQUEEZE(1)] yields two consecutive SQUEEZE words,
and two squeeze lengths summing to 2^31 yield the word 0x80000000, whose
31-bit length field is zero. -/
theorem c3_canonical_invariant_fails :
    encoded_words [1, 0x80000000, 1] = [1, 1] ∧
    alternating [1, 1] = false ∧
    encoded_words [0x7FFFFFFF, 0x00000001] = [0x80000000] ∧
    validWord 0x80000000 = false ∧ (0x80000000 : Nat) &&& 0x7FFFFFFF = 0 := by
  refine ⟨by decide, by decide, by decide, by decide, by decide⟩

/-- C4: the claim fails on the code: `compute_tag` takes a 64-byte
separator, so the serialized hash input for [ABSORB(3), SQUEEZE(1)] with
the 0x41424344 separator is 72 bytes (8 pattern bytes plus all 64
separator bytes), not the claimed 8 + 32 = 40 bytes labelled "a 36-byte
buffer", and the tag is not the truncated SHA-256 of the claimed buffer. -/
theorem c4_counterexample :
    (input_bytes [0x80000003, 0x00000001] ds_abcd).length = 72 ∧
    input_bytes [0x80000003, 0x00000001] ds_abcd
      ≠ [0x80, 0, 0, 3, 0, 0, 0, 1] ++ ([0x41, 0x42, 0x43, 0x44] ++ List.replicate 28 0) ∧
    compute_tag [0x80000003, 0x00000001] ds_abcd
      ≠ tagOfDigest (sha256
          ([0x80, 0, 0, 3, 0, 0, 0, 1] ++ ([0x41, 0x42, 0x43, 0x44] ++ List.replicate 28 0))) :=
  ⟨by decide, by decide, by decide⟩

/-- C4 amended: the separator hex string decodes (zero-padded) to the
64-byte array, the serialized hash input is the 8 pattern bytes 80 00 00
03 00 00 00 01 followed by those 64 separator bytes (a 72-byte buffer),
and the tag is the first 16 bytes of the SHA-256 digest of that buffer,
read as a big-endian unsigned 128-bit integer. -/
theorem c4_amended :
    hex_to_bytes hex41 = some ds_abcd ∧
    input_bytes [0x80000003, 0x00000001] ds_abcd
      = [0x80, 0, 0, 3, 0, 0, 0, 1] ++ ([0x41, 0x42, 0x43, 0x44] ++ List.replicate 60 0) ∧
    compute_tag [0x80000003, 0x00000001] ds_abcd
      = tagOfDigest (sha256
          ([0x80, 0, 0, 3, 0, 0, 0, 1] ++ ([0x41, 0x42, 0x43, 0x44] ++ List.replicate 60 0))) :=
  ⟨by decide, by decide, by decide⟩

/-- C5: the claim fails on the code: there is no range check, so an
aggregated ABSORB length of 2^31 (out of the 31-bit range) is silently
encoded as ABSORB_FLAG | 2^31 = 0x80000000, and the call completes with a
tag equal to that of a SQUEEZE pattern with the same overflowed sum. -/
theorem c5_no_overflow_rejection :
    encoded_words [0xFFFFFFFF, 0x80000001] = [0x80000000] ∧
    compute_tag [0xFFFFFFFF, 0x80000001] ds_zero
      = compute_tag [0x7FFFFFFF, 0x00000001] ds_zero :=
  ⟨by decide, by decide⟩

/-- C6: the claim fails on the code: the same 32-byte separator value,
written as a 64-character hex string or zero-padded as a 128-character
hex string, silently decodes to the identical 64-byte buffer — the two
widths are interchangeable and nothing is signaled. -/
theorem c6_counterexample :
    hex_to_bytes hex41 = some ds_abcd ∧ hex_to_bytes hex41x2 = some ds_abcd :=
  ⟨by decide, by decide⟩

theorem writeChunks_length :
    ∀ (chunks : List (List Nat)) (buf : List Nat) (i : Nat) (out : List Nat),
      writeChunks buf i chunks = some out → out.length = buf.length := by
  intro chunks
  induction chunks with
  | nil =>
      intro buf i out h
      simp [writeChunks] at h
      rw [← h]
  | cons c rest ih =>
      intro buf i out h
      rw [writeChunks] at h
      split at h
      · cases hc : chunkVal c with
        | none => rw [hc] at h; exact absurd h (by simp)
        | some v =>
            rw [hc] at h
            have := ih (buf.set i v) (i + 1) out h
            simpa using this
      · exact ih buf (i + 1) out h

/-- C6 amended: `compute_tag` supports exactly one separator width:
whatever hex string is supplied, the decoded buffer always has 64 bytes
(shorter inputs are zero-padded on the right, longer ones are cut at 64
bytes); no width mismatch is ever signaled. -/
theorem c6_amended (hex : List Nat) (buf : List Nat) (h : hex_to_bytes hex = some buf) :
    buf.length = 64 := by
  have := writeChunks_length _ _ _ _ h
  simpa using this

/-- C6 witness: the two-character hex string "41" decodes to a 64-byte
buffer. -/
theorem c6_witness :
    hex_to_bytes [0x34, 0x31] = some (0x41 :: List.replicate 63 0) ∧
    (0x41 :: List.replicate 63 0).length = 64 :=
  ⟨by decide, c6_amended [0x34, 0x31] (0x41 :: List.replicate 63 0) (by decide)⟩

/-- C7: aggregation idempotence holds: on an already-canonical word
sequence (well-formed 32-bit words with nonzero 31-bit length fields, no
two consecutive words of the same kind) the aggregation stage of
`compute_tag` is the identity, so the tag of the sequence equals the tag
of its re-aggregation. -/
theorem c7_aggregation_idempotent (ws : List Nat) (h : canonicalWords ws = true) :
    encoded_words ws = ws ∧
    ∀ ds : List Nat, compute_tag (encoded_words ws) ds = compute_tag ws ds := by
  have he := encoded_words_canonical_id ws h
  exact ⟨he, fun ds => by rw [he]⟩

/-- C7 witness: the canonical sequence [ABSORB(3), SQUEEZE(1)] aggregates
to itself. -/
theorem c7_witness :
    canonicalWords [0x80000003, 0x00000001] = true ∧
    encoded_words [0x80000003, 0x00000001] = [0x80000003, 0x00000001] :=
  ⟨by decide, (c7_aggregation_idempotent [0x80000003, 0x00000001] (by decide)).1⟩

/-- C8: domain sensitivity at the concrete instance: the pattern
[ABSORB(3), SQUEEZE(1)] under the separators beginning 0x41424344 and
0x42434445 (zero-padded to the 64-byte width) gives two different tags. -/
theorem c8_domain_sensitivity :
    compute_tag [0x80000003, 0x00000001] ds_abcd
      ≠ compute_tag [0x80000003, 0x00000001] ds_bcde := by decide

/-- C9: the claim fails on the code: `hex.replace("0x", "")` removes every
occurrence of "0x", not only a leading prefix. On the string "410x42" the
conversion as claimed would hit the non-hex pair "0x" and fail, while the
code removes the interior "0x" and decodes to 0x41, 0x42. -/
theorem c9_counterexample :
    hex_to_bytes [0x34, 0x31, 0x30, 0x78, 0x34, 0x32]
      ≠ hex_to_bytes_as_claimed [0x34, 0x31, 0x30, 0x78, 0x34, 0x32] ∧
    hex_to_bytes [0x34, 0x31, 0x30, 0x78, 0x34, 0x32]
      = some ([0x41, 0x42] ++ List.replicate 62 0) ∧
    hex_to_bytes_as_claimed [0x34, 0x31, 0x30, 0x78, 0x34, 0x32] = none :=
  ⟨by decide, by decide, by decide⟩

/-- C9 amended: the conversion removes every occurrence of the substring
"0x" (in particular a leading one), decodes the remaining characters as
consecutive pairs of hex digits, and places the bytes left-aligned in the
64-byte buffer, zero-padded on the right. -/
theorem c9_amended :
    (∀ hex : List Nat, hex_to_bytes (48 :: 120 :: hex) = hex_to_bytes hex) ∧
    hex_to_bytes [0x34, 0x31, 0x30, 0x78, 0x34, 0x32]
      = hex_to_bytes [0x34, 0x31, 0x34, 0x32] ∧
    hex_to_bytes [0x34, 0x31, 0x34, 0x32] = some ([0x41, 0x42] ++ List.replicate 62 0) :=
  ⟨fun _ => rfl, by decide, by decide⟩

/-- C10: confirmed: the run-length sums are plain u32 arithmetic with no
31-bit check before the kind flag is ORed in. The two SQUEEZE words with
lengths 2^31 - 1 and 1 flush the word SQUEEZE_FLAG | 2^31 = 0x80000000,
whose bit 31 is set, so the squeeze pattern serializes identically to the
absorb pattern [ABSORB(2^31 - 1), ABSORB(1)] and the two patterns of
different kinds share one hash input and tag. -/
theorem c10_squeeze_overflow_aliases_absorb :
    encoded_words [0x7FFFFFFF, 0x00000001] = [SQUEEZE_FLAG ||| 0x80000000] ∧
    wordKind (SQUEEZE_FLAG ||| 0x80000000) = true ∧
    input_bytes [0x7FFFFFFF, 0x00000001] ds_abcd
      = input_bytes [0xFFFFFFFF, 0x80000001] ds_abcd ∧
    compute_tag [0x7FFFFFFF, 0x00000001] ds_abcd
      = compute_tag [0xFFFFFFFF, 0x80000001] ds_abcd :=
  ⟨by decide, by decide, by decide, by decide⟩

end SafeApi
